import Mathlib

/-!
Verification of the Minispec compiler front-end (translate.cpp, errors.cpp,
msc.cpp) against its natural-language specification.

The C++ sources are shallowly embedded: `int64_t` values are modelled as
`Int` together with explicit two's-complement wrapping (`wrap64`), the
dynamic `Any` value container is modelled by the sum type `AnyVal`, and the
stateful classes (`IntegerContext`, `TranslatedCode`, the error reporter)
are modelled by explicit state passing.
-/

/-! ## Two's-complement 64-bit integers (`int64_t`)

An `int64_t` is represented by an `Int` in `[-2^63, 2^63)`.  `wrap64`
reduces an unbounded integer to that range (two's-complement wrap-around,
which is what the spec means by "64-bit two's-complement arithmetic" and
what the compiled C++ performs on overflow). -/

def wrap64 (x : Int) : Int := (x + 2 ^ 63) % 2 ^ 64 - 2 ^ 63

def inRange64 (x : Int) : Prop := -2 ^ 63 ≤ x ∧ x < 2 ^ 63

instance (x : Int) : Decidable (inRange64 x) := by
  unfold inRange64; infer_instance

/-- Unsigned 64-bit pattern of an `int64_t` value. -/
def toU64 (x : Int) : Nat := (x % 2 ^ 64).toNat

/-- Signed value of an unsigned 64-bit pattern. -/
def ofU64 (u : Nat) : Int := if u < 2 ^ 63 then (u : Int) else (u : Int) - 2 ^ 64

/-- Bitwise AND of two `int64_t`s (`l & r`), via the unsigned patterns. -/
def and64 (a b : Int) : Int := ofU64 (toU64 a &&& toU64 b)

/-- Bitwise OR of two `int64_t`s (`l | r`). -/
def or64 (a b : Int) : Int := ofU64 (toU64 a ||| toU64 b)

/-- Bitwise XOR of two `int64_t`s (`l ^ r`). -/
def xor64 (a b : Int) : Int := ofU64 (toU64 a ^^^ toU64 b)

/-- Bitwise complement of an `int64_t` (`~l`): in two's complement,
`~l = -l - 1`, wrapped. -/
def not64 (a : Int) : Int := wrap64 (-a - 1)

/-- The exponentiation loop of `exitBinopExpr`
(`int64_t e = 1; while (r-- > 0) e *= l;`), with each `int64_t`
multiplication wrapping.  `n` is the number of iterations. -/
def powAcc (l : Int) : Nat → Int
  | 0 => 1
  | n + 1 => wrap64 (powAcc l n * l)

/-! ## Elaborated values (`antlrcpp::Any` as used by the expression folder)

`exitBinopExpr` inspects the operand values for `int64_t`, `bool`,
`BasicErrorPtr` and `SubErrorsPtr` contents; an absent elaborated value is
a null `Any`.  Basic errors are modelled as an (AST-node id, message) pair;
colour decoration is modelled as the identity. -/

inductive AnyVal where
  | intV (i : Int)
  | boolV (b : Bool)
  | basicErr (e : Nat × String)
  | subErr (es : List (Nat × String))
  | skipV
  | null
deriving DecidableEq

def AnyVal.isInt : AnyVal → Bool
  | .intV _ => true
  | _ => false

def AnyVal.isBool : AnyVal → Bool
  | .boolV _ => true
  | _ => false

def AnyVal.isNull : AnyVal → Bool
  | .null => true
  | _ => false

def AnyVal.asInt : AnyVal → Int
  | .intV i => i
  | _ => 0

def AnyVal.asBool : AnyVal → Bool
  | .boolV b => b
  | _ => false

/-- Error payload of a value, as `SubErrors::create` sees it. -/
def AnyVal.errList : AnyVal → List (Nat × String)
  | .basicErr e => [e]
  | .subErr es => es
  | _ => []

/-- Model of `SubErrors::create(left, right)`: gather the basic errors of both sides;
zero errors yield a null `Any`, one yields the basic error itself, several
yield a `SubErrors` list. -/
def subErrorsCreate2 (left right : AnyVal) : AnyVal :=
  match left.errList ++ right.errList with
  | [] => .null
  | [e] => .basicErr e
  | es => .subErr es

/-! ## `Elaborator::exitBinopExpr` (translate.cpp lines 988-1038)

`c` is the AST node the error would be attached to.  The `(Int, Int)` arm
performs C `int64_t` arithmetic: `/` truncates toward zero (`Int.tdiv`),
`%` has the sign of the dividend (`Int.tmod`), both yield `0` for a zero
divisor; `<<` and `>>` are modelled by their defined-behaviour semantics
(multiplication by and arithmetic shift by a power of two; the C++ source
has undefined behaviour for shift counts outside `[0, 64)`). -/

def binopIntInt (c : Nat) (op : String) (l r : Int) : AnyVal :=
  if op = "+" then .intV (wrap64 (l + r))
  else if op = "-" then .intV (wrap64 (l - r))
  else if op = "*" then .intV (wrap64 (l * r))
  else if op = "/" then .intV (if r = 0 then 0 else wrap64 (Int.tdiv l r))
  else if op = "%" then .intV (if r = 0 then 0 else wrap64 (Int.tmod l r))
  else if op = "**" then .intV (powAcc l r.toNat)
  else if op = "<<" then .intV (wrap64 (l * 2 ^ r.toNat))
  else if op = ">>" then .intV (l / 2 ^ r.toNat)
  else if op = "&" then .intV (and64 l r)
  else if op = "|" then .intV (or64 l r)
  else if op = "^" then .intV (xor64 l r)
  else if op = "^~" ∨ op = "~^" then .intV (xor64 (not64 l) r)
  else if op = "<" then .boolV (decide (l < r))
  else if op = "<=" then .boolV (decide (l ≤ r))
  else if op = ">" then .boolV (decide (l > r))
  else if op = ">=" then .boolV (decide (l ≥ r))
  else if op = "==" then .boolV (decide (l = r))
  else if op = "!=" then .boolV (decide (l ≠ r))
  else .basicErr (c, op ++ " is not a valid operator for Integer values")

def binopBoolBool (c : Nat) (op : String) (l r : Bool) : AnyVal :=
  if op = "&&" then .boolV (l && r)
  else if op = "||" then .boolV (l || r)
  else .basicErr (c, op ++ " is not a valid operator for Bool values")

/-- The value deposited on a `binopExpr` node with operator `op` and operand
values `left`, `right`.  The two `isInt && isBool` tests reproduce the C++
if/else chain verbatim, including its duplicated condition (the second arm,
whose message phrases "(Bool and Integer)", repeats the first arm's test in
the source and is therefore dead code). -/
def exitBinopExpr (c : Nat) (op : String) (left right : AnyVal) : AnyVal :=
  if left.isInt && right.isInt then binopIntInt c op left.asInt right.asInt
  else if left.isBool && right.isBool then binopBoolBool c op left.asBool right.asBool
  else if left.isInt && right.isBool then
    .basicErr (c, "operands have values of incompatible types (Integer and Bool)")
  else if left.isInt && right.isBool then
    .basicErr (c, "operands have values of incompatible types (Bool and Integer)")
  else subErrorsCreate2 left right

/-! ## `Elaborator::exitCallExpr`, `log2` case (translate.cpp lines 1122-1136) -/

/-- Count of leading zero bits of a nonzero 64-bit pattern
(`__builtin_clzl`): `63 -` the position of the highest set bit. -/
def clz64 (u : Nat) : Nat := 63 - Nat.log2 u

/-- Value deposited on a `log2(x)` call whose single argument carries value
`v`: `(val > 0) ? (63 - clz64(val)) : 0` for an integer, an error for a
null or `Bool` argument, propagation otherwise. -/
def log2Call (c : Nat) (v : AnyVal) : AnyVal :=
  match v with
  | .intV val => .intV (if val > 0 then (63 : Int) - clz64 (toU64 val) else 0)
  | .null => .basicErr (c, "log2() requires an Integer expression as an argument")
  | .boolV _ => .basicErr (c, "log2() requires an Integer expression as an argument")
  | w => w

/-! ## `ParametricUse` (translate.cpp lines 23-64)

`params` is a `std::vector<Any>` whose elements are `int64_t`s or nested
`ParametricUse`s; it is modelled by the mutual list type `PUParams`. -/

mutual
inductive ParametricUse where
  | mk (name : String) (escape : Bool) (params : PUParams)
deriving DecidableEq
inductive PUParams where
  | nil
  | consInt (i : Int) (rest : PUParams)
  | consPU (p : ParametricUse) (rest : PUParams)
deriving DecidableEq
end

def PUParams.isNil : PUParams → Bool
  | .nil => true
  | _ => false

/-! Model of `ParametricUse::operator==`: names equal and argument lists
structurally equal (`int64_t` against `int64_t` by value, nested uses
recursively; a kind mismatch or length mismatch is inequality).  The
`escape` flag is not compared. -/
mutual
def ParametricUse.eqv : ParametricUse → ParametricUse → Bool
  | .mk n1 _ p1, .mk n2 _ p2 => n1 == n2 && PUParams.eqv p1 p2
def PUParams.eqv : PUParams → PUParams → Bool
  | .nil, .nil => true
  | .consInt i r, .consInt j s => i == j && PUParams.eqv r s
  | .consPU p r, .consPU q s => ParametricUse.eqv p q && PUParams.eqv r s
  | _, _ => false
end

/-! Model of `ParametricUse::str(alreadyEscaped)`: optional leading
backslash, the name, then `#(` and the comma-separated arguments closed by
`)` when the argument list is non-empty, and a mandatory trailing space
when this level escaped.  `PUParams.str` renders the loop body: each
argument followed by `,`, the last followed by `)`. -/
mutual
def ParametricUse.str : ParametricUse → Bool → String
  | .mk name esc ps, alreadyEscaped =>
    let shouldEscape := esc && !alreadyEscaped
    (if shouldEscape then "\\" else "") ++ name ++
      (if ps.isNil then "" else "#(" ++ PUParams.str ps (alreadyEscaped || shouldEscape)) ++
      (if shouldEscape then " " else "")
def PUParams.str : PUParams → Bool → String
  | .nil, _ => ""
  | .consInt i rest, ae => toString i ++ (if rest.isNil then ")" else ",") ++ PUParams.str rest ae
  | .consPU p rest, ae =>
    ParametricUse.str p ae ++ (if rest.isNil then ")" else ",") ++ PUParams.str rest ae
end

/-! Recursive agreement of the `escape` flags of two parametric uses (the
field `operator==` does not compare). -/
mutual
def ParametricUse.escAgree : ParametricUse → ParametricUse → Bool
  | .mk _ e1 p1, .mk _ e2 p2 => e1 == e2 && PUParams.escAgree p1 p2
def PUParams.escAgree : PUParams → PUParams → Bool
  | .nil, .nil => true
  | .consInt _ r, .consInt _ s => PUParams.escAgree r s
  | .consPU p r, .consPU q s => ParametricUse.escAgree p q && PUParams.escAgree r s
  | _, _ => false
end

/-! ## `IntegerContext` (translate.cpp lines 230-352)

Levels are kept innermost-first (the reverse of the C++ `std::vector`, whose
back is the innermost scope).  The C++ stores `shared_ptr<IntegerData>`
cells, each referenced by exactly one `(level, name)` slot, so the heap is
flattened into association lists.  An `INVALID` cell's `value` field is
uninitialized in the source and modelled as `0`; it is never read while the
state is `INVALID`. -/

inductive IntegerState where
  | INVALID
  | VALID
  | POISONED
deriving DecidableEq

structure IntegerData where
  state : IntegerState
  value : Int
deriving DecidableEq

structure Level where
  integers : List (String × IntegerData)
  nonIntegers : List String
  childrenCanMutate : Bool
  poisonsAncestors : Bool
deriving DecidableEq

structure IntegerContext where
  levels : List Level
deriving DecidableEq

/-- Model of `unordered_map::operator[]` assignment: replace the entry for `n`, or
append a fresh one. -/
def insertA (l : List (String × IntegerData)) (n : String) (d : IntegerData) :
    List (String × IntegerData) :=
  match l with
  | [] => [(n, d)]
  | (m, e) :: rest => if m = n then (m, d) :: rest else (m, e) :: insertA rest n d

/-- Effect of `idPtr->state = POISONED` on the cell bound to `n`: state becomes
`POISONED`, the stored value is kept. -/
def poisonEntry (l : List (String × IntegerData)) (n : String) :
    List (String × IntegerData) :=
  match l with
  | [] => []
  | (m, e) :: rest =>
    if m = n then (m, ⟨.POISONED, e.value⟩) :: rest else (m, e) :: poisonEntry rest n

def emptyLevel (canMutate poisons : Bool) : Level :=
  { integers := [], nonIntegers := [], childrenCanMutate := canMutate, poisonsAncestors := poisons }

def IntegerContext.enterImmutableLevel (ic : IntegerContext) : IntegerContext :=
  ⟨emptyLevel false false :: ic.levels⟩

def IntegerContext.enterMutableLevel (ic : IntegerContext) : IntegerContext :=
  ⟨emptyLevel true false :: ic.levels⟩

def IntegerContext.enterPoisoningLevel (ic : IntegerContext) : IntegerContext :=
  ⟨emptyLevel true true :: ic.levels⟩

/-- Model of `exitLevel`: pops the innermost scope (the source asserts that the root
remains). -/
def IntegerContext.exitLevel (ic : IntegerContext) : IntegerContext :=
  ⟨ic.levels.tail⟩

/-- Model of `IntegerContext::findInteger`: walk outward; the first integer binding
wins, a non-Integer marker stops the search. -/
def findIntegerGo (n : String) : List Level → Option IntegerData
  | [] => none
  | l :: rest =>
    match List.lookup n l.integers with
    | some d => some d
    | none => if l.nonIntegers.contains n then none else findIntegerGo n rest

def IntegerContext.findInteger (ic : IntegerContext) (n : String) : Option IntegerData :=
  findIntegerGo n ic.levels

def IntegerContext.isInteger (ic : IntegerContext) (n : String) : Bool :=
  (ic.findInteger n).isSome

/-- Model of `IntegerContext::get` (the caller still checks the state). -/
def IntegerContext.get (ic : IntegerContext) (n : String) : Option IntegerData :=
  ic.findInteger n

/-- Model of `IntegerContext::defineVar`: fails if the name is defined in the current
scope; otherwise inserts an `INVALID` integer cell or a non-Integer marker.
Returns the updated context and the success flag. -/
def IntegerContext.defineVar (ic : IntegerContext) (n : String) (isInteger : Bool) :
    IntegerContext × Bool :=
  match ic.levels with
  | [] => (ic, false)
  | cur :: rest =>
    if cur.nonIntegers.contains n then (ic, false)
    else if (List.lookup n cur.integers).isSome then (ic, false)
    else if isInteger then
      (⟨{ cur with integers := insertA cur.integers n ⟨.INVALID, 0⟩ } :: rest⟩, true)
    else
      (⟨{ cur with nonIntegers := n :: cur.nonIntegers } :: rest⟩, true)

/-- Continuation of the `IntegerContext::set` walk after the innermost
poisoning level has been captured (`poisoningLevel != nullptr`): find the
binding and mark the found cell `POISONED` in place (the fresh `VALID` cell
is installed by the caller at the captured level). -/
def setPoisonGo (n : String) : List Level → Option (List Level)
  | [] => none
  | l :: rest =>
    if !l.childrenCanMutate then none
    else if (List.lookup n l.integers).isSome then
      some ({ l with integers := poisonEntry l.integers n } :: rest)
    else if l.nonIntegers.contains n then none
    else
      match setPoisonGo n rest with
      | some rest' => some (l :: rest')
      | none => none

/-- The `IntegerContext::set` walk: from the innermost level outward, stop
at a non-innermost level whose children may not mutate it or at a
non-Integer marker; update a binding found before any poisoning level in
place; on reaching the first (innermost) level with `poisonsAncestors`, the
rest of the walk poisons the found ancestor cell and the fresh `VALID` cell
is created in that poisoning level (this realises the two-phase
pointer-mutating loop of the source, whose `poisoningLevel` capture keeps
the first poisoning level encountered). -/
def setGo (n : String) (v : Int) (first : Bool) : List Level → Option (List Level)
  | [] => none
  | l :: rest =>
    if !first && !l.childrenCanMutate then none
    else if (List.lookup n l.integers).isSome then
      some ({ l with integers := insertA l.integers n ⟨.VALID, v⟩ } :: rest)
    else if l.nonIntegers.contains n then none
    else if l.poisonsAncestors then
      match setPoisonGo n rest with
      | some rest' => some ({ l with integers := insertA l.integers n ⟨.VALID, v⟩ } :: rest')
      | none => none
    else
      match setGo n v false rest with
      | some rest' => some (l :: rest')
      | none => none

/-- Model of `IntegerContext::set`: `none` models the `return false` (variable not
defined or not mutable from here). -/
def IntegerContext.set (ic : IntegerContext) (n : String) (v : Int) :
    Option IntegerContext :=
  (setGo n v true ic.levels).map IntegerContext.mk

/-- Apply a sequence of `set` calls; a failing `set` leaves the context
unchanged (the C++ caller just receives `false`). -/
def setMany (ic : IntegerContext) : List (String × Int) → IntegerContext
  | [] => ic
  | (n, v) :: rest =>
    setMany (match ic.set n v with | some ic' => ic' | none => ic) rest

/-! ## `Elaborator::getIntegerValue` and `Elaborator::exitVarBinding`
(translate.cpp lines 657-667 and 733-752)

`getIntegerValue` reports an elaboration error on a non-integer value and
returns the dummy `42424242`; the state model keeps only the returned
value (the report is a pure output event).  `exitVarBinding` is modelled
for a `varBinding` statement with type name `typeName` and `varInits`
given as (name, optional elaborated right-hand-side value); its result is
the updated context and the value deposited on the statement node
(`Skip` for the `Integer` arm, nothing otherwise). -/

def getIntegerValue : AnyVal → Int
  | .intV i => i
  | _ => 42424242

def processVarInits (ic : IntegerContext) : List (String × Option AnyVal) → IntegerContext
  | [] => ic
  | (name, rhs) :: rest =>
    processVarInits
      (match rhs with
        | none => (ic.defineVar name true).1
        | some v =>
          match (ic.defineVar name true).1.set name (getIntegerValue v) with
          | some x => x
          | none => (ic.defineVar name true).1)
      rest

def defineNonIntegers (ic : IntegerContext) : List (String × Option AnyVal) → IntegerContext
  | [] => ic
  | (name, _) :: rest => defineNonIntegers ((ic.defineVar name false).1) rest

def exitVarBinding (ic : IntegerContext) (typeName : String)
    (varInits : List (String × Option AnyVal)) : IntegerContext × Option AnyVal :=
  if typeName = "Integer" then (processVarInits ic varInits, some .skipV)
  else (defineNonIntegers ic varInits, none)

/-! ## `TranslatedCode` (translate.cpp lines 94-228)

Only the emission state relevant to the span map is modelled: the emitted
code (a character list, so `pos()` is its length), the `dstToSrc` and
`dstToInfo` maps (AST nodes as `Nat` ids), and the `emitStack`
(innermost frame first).  The structured `emit(tree)` walk is a
composition of the primitive operations modelled by `EmitOp`: appending
text, `emitStart`, `emitEnd`, and splicing a finished `Translated`
sub-emission (the `TranslatedCodePtr` arm of `emit`, which shift-merges the
sub-emission's maps by the current position). -/

structure TranslatedCode where
  code : List Char
  dstToSrc : List ((Nat × Nat) × Nat)
  dstToInfo : List ((Nat × Nat) × String)
  emitStack : List (Nat × Nat)
deriving DecidableEq

def TranslatedCode.emitText (tc : TranslatedCode) (s : List Char) : TranslatedCode :=
  { tc with code := tc.code ++ s }

def TranslatedCode.emitStart (tc : TranslatedCode) (ctx : Nat) : TranslatedCode :=
  { tc with emitStack := (ctx, tc.code.length) :: tc.emitStack }

/-- Model of `emitEnd(ctxInfo)`: pop the innermost frame; if text was
produced since `emitStart`, record the range (and the contextual string
when non-empty).  The source asserts a non-empty stack; an empty stack is
modelled as a no-op. -/
def TranslatedCode.emitEnd (tc : TranslatedCode) (info : String) : TranslatedCode :=
  match tc.emitStack with
  | [] => tc
  | (ctx, startPos) :: rest =>
    let endPos := tc.code.length
    if startPos = endPos then { tc with emitStack := rest }
    else
      { tc with
        emitStack := rest
        dstToSrc := ((startPos, endPos), ctx) :: tc.dstToSrc
        dstToInfo :=
          if info = "" then tc.dstToInfo else ((startPos, endPos), info) :: tc.dstToInfo }

/-- Model of the `TranslatedCodePtr` arm of `emit`: splice the sub-emission's
text and shift-merge its span maps by the current position. -/
def TranslatedCode.splice (tc sub : TranslatedCode) : TranslatedCode :=
  let offset := tc.code.length
  { tc with
    dstToSrc :=
      sub.dstToSrc.map (fun r => ((r.1.1 + offset, r.1.2 + offset), r.2)) ++ tc.dstToSrc
    dstToInfo :=
      sub.dstToInfo.map (fun r => ((r.1.1 + offset, r.1.2 + offset), r.2)) ++ tc.dstToInfo
    code := tc.code ++ sub.code }

inductive EmitOp where
  | text (s : List Char)
  | start (ctx : Nat)
  | stop (info : String)
  | splice (sub : TranslatedCode)

def TranslatedCode.stepOp (tc : TranslatedCode) : EmitOp → TranslatedCode
  | .text s => tc.emitText s
  | .start ctx => tc.emitStart ctx
  | .stop info => tc.emitEnd info
  | .splice sub => tc.splice sub

def TranslatedCode.runOps (tc : TranslatedCode) : List EmitOp → TranslatedCode
  | [] => tc
  | op :: ops => (tc.stepOp op).runOps ops

/-- Span-map invariant: every recorded range `(s, e)` (in `dstToSrc` and
`dstToInfo`) satisfies `0 ≤ s < e ≤ len(code)` and addresses a non-empty
slice of the emitted text, and every open frame's start position is within
the text. -/
def SpanInv (tc : TranslatedCode) : Prop :=
  (∀ r ∈ tc.dstToSrc,
    r.1.1 < r.1.2 ∧ r.1.2 ≤ tc.code.length ∧ (tc.code.drop r.1.1).take (r.1.2 - r.1.1) ≠ []) ∧
  (∀ r ∈ tc.dstToInfo,
    r.1.1 < r.1.2 ∧ r.1.2 ≤ tc.code.length ∧ (tc.code.drop r.1.1).take (r.1.2 - r.1.1) ≠ []) ∧
  (∀ f ∈ tc.emitStack, f.2 ≤ tc.code.length)

/-- Legality of an operation: a spliced sub-emission satisfies the span
invariant itself and is fully closed (the source asserts
`tc.emitStack.empty()`). -/
def EmitOpOK : EmitOp → Prop
  | .splice sub => SpanInv sub ∧ sub.emitStack = []
  | _ => True

/-! ## Error reporting (errors.cpp lines 28-74)

The static reporter state of errors.cpp.  AST nodes are modelled as `Nat`
ids, with `none` for the null context.  `std::unordered_set` contents are
modelled as duplicate-free lists (insertion happens only after a negative
membership test).  A `reportMsg` call returns the new state and the printed
line, if any. -/

structure ReportState where
  warnMsgs : List String
  errMsgs : List String
  warnCtxs : List Nat
  errCtxs : List Nat
  totalErrs : Nat
  totalWarns : Nat
  reportAllMsgs : Bool
deriving DecidableEq

def initialReportState (reportAllErrors : Bool) : ReportState :=
  { warnMsgs := [], errMsgs := [], warnCtxs := [], errCtxs := [],
    totalErrs := 0, totalWarns := 0, reportAllMsgs := reportAllErrors }

def ctxSeen (ctxs : List Nat) : Option Nat → Bool
  | some c => ctxs.contains c
  | none => false

/-- Model of `reportMsg`: an exactly-repeated message returns immediately
(neither printed nor counted); otherwise the message is printed when
`reportAllMsgs` is set or the AST node is fresh, and the per-kind total is
incremented in every non-early-return path. -/
def reportMsg (st : ReportState) (isError : Bool) (msg locInfo : String)
    (ctx : Option Nat) : ReportState × Option String :=
  let msgs := if isError then st.errMsgs else st.warnMsgs
  let ctxs := if isError then st.errCtxs else st.warnCtxs
  if msgs.contains msg then (st, none)
  else
    let doPrint := st.reportAllMsgs || (!msgs.contains msg && !ctxSeen ctxs ctx)
    let msgs' := if doPrint then msg :: msgs else msgs
    let ctxs' := if doPrint then (match ctx with | some c => c :: ctxs | none => ctxs) else ctxs
    let st' :=
      if isError then
        { st with errMsgs := msgs', errCtxs := ctxs', totalErrs := st.totalErrs + 1 }
      else
        { st with warnMsgs := msgs', warnCtxs := ctxs', totalWarns := st.totalWarns + 1 }
    (st', if doPrint then some (locInfo ++ msg) else none)

/-- Model of `exitIfErrors`: `none` means a plain return (no errors);
otherwise the process exits with code `-1`, printing the omitted-errors
note exactly when some reported errors were deduplicated away. -/
def exitIfErrors (st : ReportState) : Option (Option String × Int) :=
  if st.totalErrs = 0 then none
  else
    some
      (if st.errMsgs.length < st.totalErrs then
        some ("note: omitted " ++ toString (st.totalErrs - st.errMsgs.length) ++
          " errors similar to those reported; run with --all-errors to see all errors")
      else none, -1)

/-! ## Header-less bsc events (msc.cpp lines 85-100)

In `reportBluespecOutput`, an event whose message has no
`"File", line, column: (CODE)` header is special-cased by the test
`msg.find("Command line:") >= 0 && msg.find("Unbound variable \x60mk")`.
Both operands are modelled exactly as the C++ evaluates them:
`std::string::find` returns a `size_t` (position, or the huge `npos` when
absent), the first comparison is on an unsigned value, and the second
operand is the implicit `size_t` to `bool` conversion (true iff nonzero). -/

def NPOS : Nat := 2 ^ 64 - 1

def findSubAux (pat : List Char) : List Char → Nat → Option Nat
  | [], i => if pat = [] then some i else none
  | h :: t, i => if pat.isPrefixOf (h :: t) then some i else findSubAux pat t (i + 1)

/-- Model of `std::string::find` as used here: position of the first
occurrence, or `npos`. -/
def cppFind (hay pat : List Char) : Nat :=
  match findSubAux pat hay 0 with
  | some i => i
  | none => NPOS

/-- Whether `pat` occurs in `hay` (the reading the specification gives to
"mentions"). -/
def mentionsSub (hay pat : List Char) : Bool :=
  (findSubAux pat hay 0).isSome

def squote : String := String.singleton (Char.ofNat 39)

inductive BscEventResult where
  | topLevelNotFound (diag : String)
  | unknown (msg : List Char)
deriving DecidableEq

def cmdLinePat : List Char := "Command line:".toList

def unboundMkPat : List Char := ("Unbound variable `mk").toList

/-- Dispatch of a header-less bsc event (the branch of
`reportBluespecOutput` taken when `hdrRegex` does not match), with the
condition embedded exactly as written in the source. -/
def reportHeaderless (topLevel : String) (isModule : Bool) (msg : List Char) :
    BscEventResult :=
  if (decide (0 ≤ cppFind msg cmdLinePat)) && (cppFind msg unboundMkPat ≠ 0) then
    .topLevelNotFound
      ("error: cannot find top-level " ++ (if isModule then "module" else "function") ++
        " " ++ squote ++ topLevel ++ squote)
  else .unknown msg

/-! ## Arithmetic facts about the 64-bit model -/

lemma wrap64_inRange (x : Int) : inRange64 (wrap64 x) := by
  unfold wrap64 inRange64
  have h1 : 0 ≤ (x + 2 ^ 63) % 2 ^ 64 := Int.emod_nonneg _ (by norm_num)
  have h2 : (x + 2 ^ 63) % 2 ^ 64 < 2 ^ 64 := Int.emod_lt_of_pos _ (by norm_num)
  constructor <;> omega

lemma wrap64_dvd (x : Int) : (2 ^ 64 : Int) ∣ (wrap64 x - x) := by
  refine ⟨-((x + 2 ^ 63) / 2 ^ 64), ?_⟩
  have h := Int.emod_def (x + 2 ^ 63) (2 ^ 64)
  unfold wrap64
  linarith

/-- Claim-side meaning of "deposits the 64-bit two's-complement result of
`x`": the node carries an integer value in `[-2^63, 2^63)` congruent to the
mathematical result modulo `2^64`. -/
def Represents64 (a : AnyVal) (x : Int) : Prop :=
  ∃ v : Int, a = .intV v ∧ inRange64 v ∧ (2 ^ 64 : Int) ∣ (v - x)

/-- Claim-side meaning for the bitwise operators: the node carries an
integer value in `[-2^63, 2^63)` whose unsigned 64-bit pattern is `u`. -/
def Pattern64 (a : AnyVal) (u : Nat) : Prop :=
  ∃ v : Int, a = .intV v ∧ inRange64 v ∧ toU64 v = u

lemma wrap64_represents (x : Int) : Represents64 (.intV (wrap64 x)) x :=
  ⟨wrap64 x, rfl, wrap64_inRange x, wrap64_dvd x⟩

lemma powAcc_inRange (l : Int) (n : Nat) : inRange64 (powAcc l n) := by
  cases n with
  | zero => refine ⟨?_, ?_⟩ <;> norm_num [powAcc]
  | succ n => exact wrap64_inRange _

lemma powAcc_dvd (l : Int) (n : Nat) : (2 ^ 64 : Int) ∣ (powAcc l n - l ^ n) := by
  induction n with
  | zero => simp [powAcc]
  | succ n ih =>
    have h1 := wrap64_dvd (powAcc l n * l)
    have h2 : (2 ^ 64 : Int) ∣ (powAcc l n * l - l ^ n * l) := by
      have := ih.mul_right l
      rwa [sub_mul] at this
    have h3 := dvd_add h1 h2
    rw [pow_succ]
    calc (2 ^ 64 : Int) ∣ (wrap64 (powAcc l n * l) - powAcc l n * l) +
        (powAcc l n * l - l ^ n * l) := h3
      _ = wrap64 (powAcc l n * l) - l ^ n * l := by ring

lemma toU64_lt (x : Int) : toU64 x < 2 ^ 64 := by
  unfold toU64
  have h1 : 0 ≤ x % 2 ^ 64 := Int.emod_nonneg _ (by norm_num)
  have h2 : x % 2 ^ 64 < 2 ^ 64 := Int.emod_lt_of_pos _ (by norm_num)
  omega

lemma toU64_wrap64 (y : Int) : toU64 (wrap64 y) = toU64 y := by
  unfold toU64
  obtain ⟨q, hq⟩ := wrap64_dvd y
  have h : wrap64 y = y + 2 ^ 64 * q := by linarith
  rw [h, Int.add_mul_emod_self_left]

lemma ofU64_inRange (u : Nat) (h : u < 2 ^ 64) : inRange64 (ofU64 u) := by
  unfold ofU64 inRange64
  split <;> omega

lemma toU64_ofU64 (u : Nat) (h : u < 2 ^ 64) : toU64 (ofU64 u) = u := by
  unfold toU64 ofU64
  split <;> omega

lemma pattern64_ofU64 (u : Nat) (h : u < 2 ^ 64) : Pattern64 (.intV (ofU64 u)) u :=
  ⟨ofU64 u, rfl, ofU64_inRange u h, toU64_ofU64 u h⟩

lemma toU64_not64 (l : Int) : toU64 (not64 l) = 2 ^ 64 - 1 - toU64 l := by
  unfold not64
  rw [toU64_wrap64]
  unfold toU64
  omega

lemma ediv_pow2_inRange (l : Int) (k : Nat) (h : inRange64 l) : inRange64 (l / 2 ^ k) := by
  have hm : (0 : Int) < 2 ^ k := by positivity
  obtain ⟨h1, h2⟩ := h
  rcases le_or_lt 0 l with hl | hl
  · have hub : l / 2 ^ k ≤ l := Int.ediv_le_self _ hl
    have hlb : 0 ≤ l / 2 ^ k := Int.ediv_nonneg hl hm.le
    exact ⟨by omega, by omega⟩
  · have hub : l / 2 ^ k ≤ 0 := by
      have := Int.ediv_le_ediv hm hl.le
      simpa using this
    have hlb : l ≤ l / 2 ^ k := by
      rw [Int.le_ediv_iff_mul_le hm]
      have : l * 2 ^ k ≤ l * 1 := by
        apply mul_le_mul_of_nonpos_left _ hl.le
        omega
      simpa using this
    exact ⟨by omega, by omega⟩

/-- C1: for a binary operator expression whose operands elaborate to
compile-time Integers `l` and `r`, the elaborator deposits the 64-bit
two's-complement result for `+ - * / % ** << >> & | ^ ^~ ~^` (with `l / r`
and `l % r` equal to `0` when `r = 0`, no fault), and deposits a
compile-time Bool for `< <= > >= == !=`.  Division and remainder follow the
C `int64_t` semantics (truncation toward zero, remainder with the sign of
the dividend); the shift conjuncts are stated for shift counts in
`[0, 64)`, the range where the C++ shift has defined behaviour. -/
theorem binop_integer_semantics (c : Nat) (l r : Int)
    (hl : inRange64 l) (hr : inRange64 r) :
    Represents64 (exitBinopExpr c "+" (.intV l) (.intV r)) (l + r)
    ∧ Represents64 (exitBinopExpr c "-" (.intV l) (.intV r)) (l - r)
    ∧ Represents64 (exitBinopExpr c "*" (.intV l) (.intV r)) (l * r)
    ∧ (r ≠ 0 → Represents64 (exitBinopExpr c "/" (.intV l) (.intV r)) (Int.tdiv l r))
    ∧ (r = 0 → exitBinopExpr c "/" (.intV l) (.intV r) = .intV 0)
    ∧ (r ≠ 0 → Represents64 (exitBinopExpr c "%" (.intV l) (.intV r)) (Int.tmod l r))
    ∧ (r = 0 → exitBinopExpr c "%" (.intV l) (.intV r) = .intV 0)
    ∧ Represents64 (exitBinopExpr c "**" (.intV l) (.intV r)) (l ^ r.toNat)
    ∧ (0 ≤ r → r < 64 →
        Represents64 (exitBinopExpr c "<<" (.intV l) (.intV r)) (l * 2 ^ r.toNat))
    ∧ (0 ≤ r → r < 64 →
        Represents64 (exitBinopExpr c ">>" (.intV l) (.intV r)) (l / 2 ^ r.toNat))
    ∧ Pattern64 (exitBinopExpr c "&" (.intV l) (.intV r)) (toU64 l &&& toU64 r)
    ∧ Pattern64 (exitBinopExpr c "|" (.intV l) (.intV r)) (toU64 l ||| toU64 r)
    ∧ Pattern64 (exitBinopExpr c "^" (.intV l) (.intV r)) (toU64 l ^^^ toU64 r)
    ∧ Pattern64 (exitBinopExpr c "^~" (.intV l) (.intV r)) ((2 ^ 64 - 1 - toU64 l) ^^^ toU64 r)
    ∧ Pattern64 (exitBinopExpr c "~^" (.intV l) (.intV r)) ((2 ^ 64 - 1 - toU64 l) ^^^ toU64 r)
    ∧ exitBinopExpr c "<" (.intV l) (.intV r) = .boolV (decide (l < r))
    ∧ exitBinopExpr c "<=" (.intV l) (.intV r) = .boolV (decide (l ≤ r))
    ∧ exitBinopExpr c ">" (.intV l) (.intV r) = .boolV (decide (l > r))
    ∧ exitBinopExpr c ">=" (.intV l) (.intV r) = .boolV (decide (l ≥ r))
    ∧ exitBinopExpr c "==" (.intV l) (.intV r) = .boolV (decide (l = r))
    ∧ exitBinopExpr c "!=" (.intV l) (.intV r) = .boolV (decide (l ≠ r)) := by
  refine ⟨wrap64_represents _, wrap64_represents _, wrap64_represents _,
    ?_, ?_, ?_, ?_, ?_, ?_, ?_, ?_, ?_, ?_, ?_, ?_, rfl, rfl, rfl, rfl, rfl, rfl⟩
  · intro h
    have e : exitBinopExpr c "/" (.intV l) (.intV r) =
        .intV (if r = 0 then 0 else wrap64 (Int.tdiv l r)) := rfl
    rw [e, if_neg h]
    exact wrap64_represents _
  · intro h
    have e : exitBinopExpr c "/" (.intV l) (.intV r) =
        .intV (if r = 0 then 0 else wrap64 (Int.tdiv l r)) := rfl
    rw [e, if_pos h]
  · intro h
    have e : exitBinopExpr c "%" (.intV l) (.intV r) =
        .intV (if r = 0 then 0 else wrap64 (Int.tmod l r)) := rfl
    rw [e, if_neg h]
    exact wrap64_represents _
  · intro h
    have e : exitBinopExpr c "%" (.intV l) (.intV r) =
        .intV (if r = 0 then 0 else wrap64 (Int.tmod l r)) := rfl
    rw [e, if_pos h]
  · exact ⟨powAcc l r.toNat, rfl, powAcc_inRange l _, powAcc_dvd l _⟩
  · intro _ _
    exact wrap64_represents _
  · intro _ _
    exact ⟨l / 2 ^ r.toNat, rfl, ediv_pow2_inRange l _ hl, by simp⟩
  · exact pattern64_ofU64 _ (Nat.and_lt_two_pow _ (toU64_lt r))
  · exact pattern64_ofU64 _ (Nat.or_lt_two_pow (toU64_lt l) (toU64_lt r))
  · exact pattern64_ofU64 _ (Nat.xor_lt_two_pow (toU64_lt l) (toU64_lt r))
  · have e : exitBinopExpr c "^~" (.intV l) (.intV r) =
        .intV (ofU64 (toU64 (not64 l) ^^^ toU64 r)) := rfl
    rw [e, toU64_not64]
    refine pattern64_ofU64 _ (Nat.xor_lt_two_pow ?_ (toU64_lt r))
    have := toU64_lt l
    omega
  · have e : exitBinopExpr c "~^" (.intV l) (.intV r) =
        .intV (ofU64 (toU64 (not64 l) ^^^ toU64 r)) := rfl
    rw [e, toU64_not64]
    refine pattern64_ofU64 _ (Nat.xor_lt_two_pow ?_ (toU64_lt r))
    have := toU64_lt l
    omega

theorem binop_integer_semantics_witness :
    inRange64 5 ∧ Represents64 (exitBinopExpr 0 "+" (.intV 5) (.intV 3)) (5 + 3) :=
  ⟨by decide, (binop_integer_semantics 0 5 3 (by decide) (by decide)).1⟩

/-- C10: the exponentiation operator `**` on compile-time Integers
evaluates to `1` whenever the exponent is non-positive (the while loop
`e = 1; while (r-- > 0) e *= l;` performs no multiplication), so
`0 ** 0 = 1` and any negative exponent yields `1` without faulting. -/
theorem pow_nonpositive_exponent (c : Nat) (l r : Int) (h : r ≤ 0) :
    exitBinopExpr c "**" (.intV l) (.intV r) = .intV 1 := by
  have e : exitBinopExpr c "**" (.intV l) (.intV r) = .intV (powAcc l r.toNat) := rfl
  have h0 : r.toNat = 0 := Int.toNat_of_nonpos h
  rw [e, h0]
  rfl

theorem pow_nonpositive_exponent_witness :
    (0 : Int) ≤ 0 ∧ exitBinopExpr 0 "**" (.intV 0) (.intV 0) = .intV 1 :=
  ⟨le_refl 0, pow_nonpositive_exponent 0 0 0 (le_refl 0)⟩

/-- C5: evaluation of `exitBinopExpr` at a Bool left operand and an Integer
right operand.  The source's second mixed-type arm repeats the first arm's
condition `left.is<int64_t>() && right.is<bool>()` instead of testing
`left.is<bool>() && right.is<int64_t>()`, so a `(Bool, Integer)` operand
pair falls through to `SubErrors::create`, which returns a null `Any`: no
error is attached to the node, while the `(Integer, Bool)` order does
receive the phrased error.  The unreachable arm's own message, "(Bool and
Integer)", shows the intended test. -/
theorem mixed_bool_integer_operands_drop_error :
    exitBinopExpr 0 "+" (.boolV true) (.intV 1) = .null
    ∧ exitBinopExpr 0 "+" (.intV 1) (.boolV true) =
        .basicErr (0, "operands have values of incompatible types (Integer and Bool)") :=
  ⟨rfl, rfl⟩

/-- C4 (amended): a `log2(x)` call whose single argument elaborates to a
compile-time Integer `x` elaborates to `floor(log2(max(1, x)))` — `0` when
`x ≤ 0`, else the bit position of the highest set bit of `x`.  (The
original claim applies the formula to `|x|`, which disagrees with the code
for negative `x`; see the counterexample.) -/
theorem log2_integer_argument (c : Nat) (x : Int) (h : inRange64 x) :
    log2Call c (.intV x) = .intV (Nat.log 2 (max 1 x).toNat) := by
  have e : log2Call c (.intV x) =
      .intV (if x > 0 then (63 : Int) - clz64 (toU64 x) else 0) := rfl
  rw [e]
  obtain ⟨h1, h2⟩ := h
  rcases le_or_lt x 0 with hx | hx
  · rw [if_neg (not_lt.mpr hx)]
    have hm : max 1 x = 1 := max_eq_left (by omega)
    rw [hm]
    norm_num
  · rw [if_pos hx]
    congr 1
    have hmax : max 1 x = x := max_eq_right (by omega)
    rw [hmax]
    have htu : toU64 x = x.toNat := by
      unfold toU64
      omega
    rw [htu]
    unfold clz64
    have hne : x.toNat ≠ 0 := by omega
    have hlt : Nat.log2 x.toNat < 64 := (Nat.log2_lt hne).mpr (by omega)
    rw [Nat.log2_eq_log_two] at hlt ⊢
    omega

theorem log2_integer_argument_witness :
    inRange64 8 ∧ log2Call 0 (.intV 8) = .intV (Nat.log 2 (max 1 (8 : Int)).toNat) :=
  ⟨by decide, log2_integer_argument 0 8 (by decide)⟩

/-- Formula of claim C4 exactly as stated: `floor(log2(max(1, |x|)))`. -/
def specLog2Abs (x : Int) : Int := Nat.log 2 (max 1 |x|).toNat

/-- Counterexample to C4 as stated: at `x = -2` the elaborator deposits
`0`, while `floor(log2(max(1, |-2|))) = floor(log2 2) = 1`. -/
theorem log2_abs_formula_counterexample :
    log2Call 0 (.intV (-2)) = .intV 0 ∧ specLog2Abs (-2) = 1 ∧
    log2Call 0 (.intV (-2)) ≠ .intV (specLog2Abs (-2)) := by
  have h1 : log2Call 0 (.intV (-2)) = .intV 0 := rfl
  have hlog : Nat.log 2 2 = 1 := Nat.log_eq_of_pow_le_of_lt_pow (by norm_num) (by norm_num)
  have h2 : specLog2Abs (-2) = 1 := by
    unfold specLog2Abs
    norm_num
    rw [show Int.toNat 2 = 2 from rfl, hlog]
  refine ⟨h1, h2, ?_⟩
  rw [h1, h2]
  decide

/-! ## ParametricUse printing -/

mutual
theorem parametricUse_eqv_escAgree_str (a b : ParametricUse)
    (h1 : ParametricUse.eqv a b = true) (h2 : ParametricUse.escAgree a b = true)
    (ae : Bool) : ParametricUse.str a ae = ParametricUse.str b ae := by
  match a, b with
  | .mk n1 e1 p1, .mk n2 e2 p2 =>
    simp only [ParametricUse.eqv, Bool.and_eq_true, beq_iff_eq] at h1
    simp only [ParametricUse.escAgree, Bool.and_eq_true, beq_iff_eq] at h2
    obtain ⟨hn, hp⟩ := h1
    obtain ⟨he, hpe⟩ := h2
    subst hn
    subst he
    have hrec := puParams_eqv_escAgree_str p1 p2 hp hpe
    simp only [ParametricUse.str, hrec.1, hrec.2]
theorem puParams_eqv_escAgree_str (p q : PUParams)
    (h1 : PUParams.eqv p q = true) (h2 : PUParams.escAgree p q = true) :
    p.isNil = q.isNil ∧ ∀ ae : Bool, PUParams.str p ae = PUParams.str q ae := by
  match p, q with
  | .nil, .nil => exact ⟨rfl, fun _ => rfl⟩
  | .nil, .consInt j s => simp [PUParams.eqv] at h1
  | .nil, .consPU b s => simp [PUParams.eqv] at h1
  | .consInt i r, .nil => simp [PUParams.eqv] at h1
  | .consInt i r, .consInt j s =>
    simp only [PUParams.eqv, Bool.and_eq_true, beq_iff_eq] at h1
    simp only [PUParams.escAgree] at h2
    obtain ⟨hij, hrs⟩ := h1
    subst hij
    have hrec := puParams_eqv_escAgree_str r s hrs h2
    refine ⟨rfl, fun ae => ?_⟩
    simp only [PUParams.str, hrec.1, hrec.2 ae]
  | .consInt i r, .consPU b s => simp [PUParams.eqv] at h1
  | .consPU a r, .nil => simp [PUParams.eqv] at h1
  | .consPU a r, .consInt j s => simp [PUParams.eqv] at h1
  | .consPU a r, .consPU b s =>
    simp only [PUParams.eqv, Bool.and_eq_true] at h1
    simp only [PUParams.escAgree, Bool.and_eq_true] at h2
    obtain ⟨hab, hrs⟩ := h1
    obtain ⟨habe, hrse⟩ := h2
    have hrec := puParams_eqv_escAgree_str r s hrs hrse
    refine ⟨rfl, fun ae => ?_⟩
    simp only [PUParams.str, hrec.1, hrec.2 ae,
      parametricUse_eqv_escAgree_str a b hab habe ae]
end

theorem parametricUse_eqv_escAgree_str_witness :
    ParametricUse.eqv (.mk "Vector" false (.consInt 4 (.consPU (.mk "myT" true .nil) .nil)))
        (.mk "Vector" false (.consInt 4 (.consPU (.mk "myT" true .nil) .nil))) = true
    ∧ ParametricUse.escAgree (.mk "Vector" false (.consInt 4 (.consPU (.mk "myT" true .nil) .nil)))
        (.mk "Vector" false (.consInt 4 (.consPU (.mk "myT" true .nil) .nil))) = true
    ∧ ParametricUse.str (.mk "Vector" false (.consInt 4 (.consPU (.mk "myT" true .nil) .nil))) false =
        ParametricUse.str (.mk "Vector" false (.consInt 4 (.consPU (.mk "myT" true .nil) .nil))) false :=
  ⟨by decide, by decide,
    parametricUse_eqv_escAgree_str _ _ (by decide) (by decide) false⟩

/-- Counterexample to C2 as stated: `operator==` does not compare the
`escape` flag, so the two uses below are equal, yet one prints with the
backslash escape and trailing space and the other does not. -/
theorem parametricUse_eq_str_counterexample :
    ParametricUse.eqv (.mk "Foo" true .nil) (.mk "Foo" false .nil) = true
    ∧ ParametricUse.str (.mk "Foo" true .nil) false ≠
        ParametricUse.str (.mk "Foo" false .nil) false := by
  constructor
  · decide
  · decide

/-! ## Emitter span-map invariant -/

lemma slice_ne_nil (l : List Char) (a b : Nat) (h1 : a < b) (h2 : b ≤ l.length) :
    (l.drop a).take (b - a) ≠ [] := by
  intro hnil
  have hlen : ((l.drop a).take (b - a)).length = min (b - a) (l.length - a) := by
    simp [List.length_take, List.length_drop]
  rw [hnil] at hlen
  simp at hlen
  omega

lemma spanInv_step (tc : TranslatedCode) (op : EmitOp)
    (h : SpanInv tc) (hop : EmitOpOK op) : SpanInv (tc.stepOp op) := by
  obtain ⟨hsrc, hinfo, hstk⟩ := h
  cases op with
  | text s =>
    refine ⟨?_, ?_, ?_⟩
    · intro r hr
      have := hsrc r hr
      simp only [TranslatedCode.stepOp, TranslatedCode.emitText, List.length_append]
      exact ⟨this.1, by omega, slice_ne_nil _ _ _ this.1 (by simp; omega)⟩
    · intro r hr
      have := hinfo r hr
      simp only [TranslatedCode.stepOp, TranslatedCode.emitText, List.length_append]
      exact ⟨this.1, by omega, slice_ne_nil _ _ _ this.1 (by simp; omega)⟩
    · intro f hf
      have := hstk f hf
      simp only [TranslatedCode.stepOp, TranslatedCode.emitText, List.length_append]
      omega
  | start ctx =>
    refine ⟨hsrc, hinfo, ?_⟩
    intro f hf
    simp only [TranslatedCode.stepOp, TranslatedCode.emitStart] at hf ⊢
    rcases List.mem_cons.mp hf with hf | hf
    · subst hf; exact le_refl _
    · exact hstk f hf
  | stop info =>
    cases hs : tc.emitStack with
    | nil =>
      simp only [TranslatedCode.stepOp, TranslatedCode.emitEnd, hs]
      exact ⟨hsrc, hinfo, hstk⟩
    | cons fr rest =>
      obtain ⟨ctx, startPos⟩ := fr
      simp only [TranslatedCode.stepOp, TranslatedCode.emitEnd, hs]
      have hsp : startPos ≤ tc.code.length := hstk _ (by rw [hs]; exact List.mem_cons_self _ _)
      by_cases he : startPos = tc.code.length
      · rw [if_pos he]
        exact ⟨hsrc, hinfo, fun f hf => hstk f (by rw [hs]; exact List.mem_cons_of_mem _ hf)⟩
      · rw [if_neg he]
        have hlt : startPos < tc.code.length := by omega
        refine ⟨?_, ?_, fun f hf => hstk f (by rw [hs]; exact List.mem_cons_of_mem _ hf)⟩
        · intro r hr
          rcases List.mem_cons.mp hr with hr | hr
          · subst hr
            exact ⟨hlt, le_refl _, slice_ne_nil _ _ _ hlt (le_refl _)⟩
          · exact hsrc r hr
        · intro r hr
          split at hr
          · exact hinfo r hr
          · rcases List.mem_cons.mp hr with hr | hr
            · subst hr
              exact ⟨hlt, le_refl _, slice_ne_nil _ _ _ hlt (le_refl _)⟩
            · exact hinfo r hr
  | splice sub =>
    obtain ⟨⟨hsub1, hsub2, _⟩, _⟩ := hop
    simp only [TranslatedCode.stepOp, TranslatedCode.splice]
    refine ⟨?_, ?_, ?_⟩
    · intro r hr
      simp only [List.mem_append, List.mem_map] at hr
      simp only [List.length_append]
      rcases hr with ⟨r0, hr0, hmap⟩ | hr
      · have := hsub1 r0 hr0
        subst hmap
        refine ⟨by simp; omega, by simp; omega, ?_⟩
        apply slice_ne_nil
        · simp; omega
        · simp; omega
      · have := hsrc r hr
        exact ⟨this.1, by omega, slice_ne_nil _ _ _ this.1 (by simp; omega)⟩
    · intro r hr
      simp only [List.mem_append, List.mem_map] at hr
      simp only [List.length_append]
      rcases hr with ⟨r0, hr0, hmap⟩ | hr
      · have := hsub2 r0 hr0
        subst hmap
        refine ⟨by simp; omega, by simp; omega, ?_⟩
        apply slice_ne_nil
        · simp; omega
        · simp; omega
      · have := hinfo r hr
        exact ⟨this.1, by omega, slice_ne_nil _ _ _ this.1 (by simp; omega)⟩
    · intro f hf
      simp only [List.length_append]
      have := hstk f hf
      omega

/-- C6: every range recorded in the emitter's span maps — including ranges
shift-merged from spliced `Translated` sub-emissions — satisfies
`0 ≤ s < e ≤ len(code)` and addresses a non-empty slice of the emitted
text (the invariant is preserved by every emission operation); and, in
particular, `emitEnd` records no range when the region produced no text. -/
theorem translatedCode_span_invariant :
    (∀ (tc : TranslatedCode) (ops : List EmitOp),
      SpanInv tc → (∀ op ∈ ops, EmitOpOK op) → SpanInv (tc.runOps ops))
    ∧ (∀ (tc : TranslatedCode) (ctx startPos : Nat) (rest : List (Nat × Nat)) (info : String),
        tc.emitStack = (ctx, startPos) :: rest → startPos = tc.code.length →
        (tc.stepOp (.stop info)).dstToSrc = tc.dstToSrc ∧
          (tc.stepOp (.stop info)).dstToInfo = tc.dstToInfo) := by
  constructor
  · intro tc ops
    induction ops generalizing tc with
    | nil => intro h _; exact h
    | cons op ops ih =>
      intro h hok
      exact ih _ (spanInv_step tc op h (hok op (List.mem_cons_self _ _)))
        (fun o ho => hok o (List.mem_cons_of_mem _ ho))
  · intro tc ctx startPos rest info hstk heq
    simp only [TranslatedCode.stepOp, TranslatedCode.emitEnd, hstk]
    rw [if_pos heq]
    exact ⟨rfl, rfl⟩

theorem translatedCode_span_invariant_witness :
    SpanInv (TranslatedCode.runOps ⟨[], [], [], []⟩
      [.start 7, .text ['a', 'b'], .stop "loop info"]) :=
  translatedCode_span_invariant.1 ⟨[], [], [], []⟩ _
    ⟨fun r hr => absurd hr (List.not_mem_nil r),
     fun r hr => absurd hr (List.not_mem_nil r),
     fun f hf => absurd hf (List.not_mem_nil f)⟩
    (by intro op ho
        fin_cases ho <;> trivial)

/-! ## Poisoning-scope invariants -/

/-- Relation between an integer cell before a poisoning scope was entered
and the same cell later: it is untouched, or it was marked `POISONED` with
its pre-entry value kept. -/
def EntryPreserved (o c : String × IntegerData) : Prop :=
  c = o ∨ (c.1 = o.1 ∧ c.2.state = .POISONED ∧ c.2.value = o.2.value)

/-- Lift of `EntryPreserved` to a whole scope: the flags and non-Integer
markers are untouched and the integer cells are pointwise preserved. -/
def LevelPreserved (o c : Level) : Prop :=
  c.nonIntegers = o.nonIntegers ∧ c.childrenCanMutate = o.childrenCanMutate ∧
  c.poisonsAncestors = o.poisonsAncestors ∧
  List.Forall₂ EntryPreserved o.integers c.integers

lemma forall₂_entryPreserved_refl (l : List (String × IntegerData)) :
    List.Forall₂ EntryPreserved l l := by
  induction l with
  | nil => exact List.Forall₂.nil
  | cons e rest ih => exact List.Forall₂.cons (Or.inl rfl) ih

lemma levelPreserved_refl (l : Level) : LevelPreserved l l :=
  ⟨rfl, rfl, rfl, forall₂_entryPreserved_refl l.integers⟩

lemma forall₂_levelPreserved_refl (ls : List Level) :
    List.Forall₂ LevelPreserved ls ls := by
  induction ls with
  | nil => exact List.Forall₂.nil
  | cons l rest ih => exact List.Forall₂.cons (levelPreserved_refl l) ih

lemma entryPreserved_trans {a b c : String × IntegerData}
    (h1 : EntryPreserved a b) (h2 : EntryPreserved b c) : EntryPreserved a c := by
  rcases h2 with h2 | h2
  · rwa [h2]
  · rcases h1 with h1 | h1
    · right
      rw [h1] at h2
      exact h2
    · right
      exact ⟨h2.1.trans h1.1, h2.2.1, h2.2.2.trans h1.2.2⟩

lemma forall₂_entryPreserved_trans {a b c : List (String × IntegerData)}
    (h1 : List.Forall₂ EntryPreserved a b) (h2 : List.Forall₂ EntryPreserved b c) :
    List.Forall₂ EntryPreserved a c := by
  induction h1 generalizing c with
  | nil =>
    cases h2
    exact List.Forall₂.nil
  | cons he hrest ih =>
    cases h2 with
    | cons he2 hrest2 =>
      exact List.Forall₂.cons (entryPreserved_trans he he2) (ih hrest2)

lemma levelPreserved_trans {a b c : Level}
    (h1 : LevelPreserved a b) (h2 : LevelPreserved b c) : LevelPreserved a c :=
  ⟨h2.1.trans h1.1, h2.2.1.trans h1.2.1, h2.2.2.1.trans h1.2.2.1,
    forall₂_entryPreserved_trans h1.2.2.2 h2.2.2.2⟩

lemma forall₂_levelPreserved_trans {a b c : List Level}
    (h1 : List.Forall₂ LevelPreserved a b) (h2 : List.Forall₂ LevelPreserved b c) :
    List.Forall₂ LevelPreserved a c := by
  induction h1 generalizing c with
  | nil =>
    cases h2
    exact List.Forall₂.nil
  | cons he hrest ih =>
    cases h2 with
    | cons he2 hrest2 =>
      exact List.Forall₂.cons (levelPreserved_trans he he2) (ih hrest2)

lemma poisonEntry_preserved (l : List (String × IntegerData)) (n : String) :
    List.Forall₂ EntryPreserved l (poisonEntry l n) := by
  induction l with
  | nil => exact List.Forall₂.nil
  | cons e rest ih =>
    obtain ⟨m, d⟩ := e
    unfold poisonEntry
    split
    · exact List.Forall₂.cons (Or.inr ⟨rfl, rfl, rfl⟩) (forall₂_entryPreserved_refl rest)
    · exact List.Forall₂.cons (Or.inl rfl) ih

lemma setPoisonGo_preserved (n : String) (ls ls' : List Level)
    (h : setPoisonGo n ls = some ls') : List.Forall₂ LevelPreserved ls ls' := by
  induction ls generalizing ls' with
  | nil => exact absurd h (by simp [setPoisonGo])
  | cons l rest ih =>
    unfold setPoisonGo at h
    by_cases hcm : (!l.childrenCanMutate) = true
    · rw [if_pos hcm] at h
      cases h
    · rw [if_neg hcm] at h
      by_cases hfound : (List.lookup n l.integers).isSome = true
      · rw [if_pos hfound] at h
        obtain rfl : ({ l with integers := poisonEntry l.integers n } :: rest) = ls' :=
          Option.some_injective _ h
        exact List.Forall₂.cons ⟨rfl, rfl, rfl, poisonEntry_preserved l.integers n⟩
          (forall₂_levelPreserved_refl rest)
      · rw [if_neg hfound] at h
        by_cases hnon : l.nonIntegers.contains n = true
        · rw [if_pos hnon] at h
          cases h
        · rw [if_neg hnon] at h
          cases hrec : setPoisonGo n rest with
          | none => rw [hrec] at h; cases h
          | some rest' =>
            rw [hrec] at h
            obtain rfl : (l :: rest') = ls' := Option.some_injective _ h
            exact List.Forall₂.cons (levelPreserved_refl l) (ih rest' hrec)

lemma lookup_poisonEntry_self (l : List (String × IntegerData)) (n : String)
    (d : IntegerData) (h : List.lookup n l = some d) :
    List.lookup n (poisonEntry l n) = some ⟨.POISONED, d.value⟩ := by
  induction l with
  | nil => cases h
  | cons e rest ih =>
    obtain ⟨m, dd⟩ := e
    unfold poisonEntry
    by_cases hm : m = n
    · subst hm
      rw [if_pos rfl]
      simp only [List.lookup, beq_self_eq_true] at h ⊢
      cases h
      rfl
    · rw [if_neg hm]
      have hb : (n == m) = false := beq_eq_false_iff_ne.mpr (fun hh => hm hh.symm)
      simp only [List.lookup, hb] at h ⊢
      exact ih h

lemma setPoisonGo_findInteger (n : String) (ls ls' : List Level)
    (h : setPoisonGo n ls = some ls') :
    ∃ d : IntegerData, findIntegerGo n ls = some d ∧
      findIntegerGo n ls' = some ⟨.POISONED, d.value⟩ := by
  induction ls generalizing ls' with
  | nil => exact absurd h (by simp [setPoisonGo])
  | cons l rest ih =>
    unfold setPoisonGo at h
    by_cases hcm : (!l.childrenCanMutate) = true
    · rw [if_pos hcm] at h
      cases h
    · rw [if_neg hcm] at h
      by_cases hfound : (List.lookup n l.integers).isSome = true
      · rw [if_pos hfound] at h
        obtain rfl : ({ l with integers := poisonEntry l.integers n } :: rest) = ls' :=
          Option.some_injective _ h
        obtain ⟨d, hd⟩ := Option.isSome_iff_exists.mp hfound
        refine ⟨d, ?_, ?_⟩
        · unfold findIntegerGo
          rw [hd]
        · unfold findIntegerGo
          rw [lookup_poisonEntry_self l.integers n d hd]
      · rw [if_neg hfound] at h
        have hnone : List.lookup n l.integers = none := by
          cases hl : List.lookup n l.integers
          · rfl
          · rw [hl] at hfound
            simp at hfound
        by_cases hnon : l.nonIntegers.contains n = true
        · rw [if_pos hnon] at h
          cases h
        · rw [if_neg hnon] at h
          cases hrec : setPoisonGo n rest with
          | none =>
            rw [hrec] at h
            cases h
          | some rest' =>
            rw [hrec] at h
            obtain rfl : (l :: rest') = ls' := Option.some_injective _ h
            obtain ⟨d, h1, h2⟩ := ih rest' hrec
            refine ⟨d, ?_, ?_⟩
            · unfold findIntegerGo
              rw [hnone, if_neg hnon]
              exact h1
            · unfold findIntegerGo
              rw [hnone, if_neg hnon]
              exact h2

lemma set_enterPoisoning_spec (ic : IntegerContext) (n : String) (v : Int)
    (ic'' : IntegerContext) (h : (ic.enterPoisoningLevel).set n v = some ic'') :
    ∃ (hd : Level) (t : List Level) (d : IntegerData),
      ic''.levels = hd :: t ∧ hd.poisonsAncestors = true ∧
      List.lookup n hd.integers = some ⟨.VALID, v⟩ ∧
      ic.findInteger n = some d ∧
      (ic''.exitLevel).findInteger n = some ⟨.POISONED, d.value⟩ := by
  have hsg : (ic.enterPoisoningLevel).set n v =
      (match setPoisonGo n ic.levels with
        | some rest' =>
          some ({ emptyLevel true true with integers := insertA [] n ⟨.VALID, v⟩ } :: rest')
        | none => none).map IntegerContext.mk := rfl
  rw [hsg] at h
  cases hrec : setPoisonGo n ic.levels with
  | none =>
    rw [hrec] at h
    cases h
  | some rest' =>
    rw [hrec] at h
    obtain rfl : IntegerContext.mk
        ({ emptyLevel true true with integers := insertA [] n ⟨.VALID, v⟩ } :: rest') = ic'' :=
      Option.some_injective _ h
    obtain ⟨d, h1, h2⟩ := setPoisonGo_findInteger n ic.levels rest' hrec
    refine ⟨_, rest', d, rfl, rfl, ?_, h1, h2⟩
    simp [insertA, List.lookup]

lemma poisonTop_set_preserved (orig : List Level) (P : Level) (cur : List Level)
    (hp : P.poisonsAncestors = true) (hnon : P.nonIntegers = [])
    (hrel : List.Forall₂ LevelPreserved orig cur) (n : String) (v : Int) :
    ∃ P' cur',
      (match IntegerContext.set ⟨P :: cur⟩ n v with
        | some ic' => ic'
        | none => (⟨P :: cur⟩ : IntegerContext)).levels = P' :: cur' ∧
      P'.poisonsAncestors = true ∧ P'.nonIntegers = [] ∧
      List.Forall₂ LevelPreserved orig cur' := by
  have hset : IntegerContext.set ⟨P :: cur⟩ n v =
      (setGo n v true (P :: cur)).map IntegerContext.mk := rfl
  have hgo : setGo n v true (P :: cur) =
      (if (List.lookup n P.integers).isSome = true then
        some ({ P with integers := insertA P.integers n ⟨.VALID, v⟩ } :: cur)
      else if P.nonIntegers.contains n = true then none
      else if P.poisonsAncestors = true then
        match setPoisonGo n cur with
        | some rest' => some ({ P with integers := insertA P.integers n ⟨.VALID, v⟩ } :: rest')
        | none => none
      else
        match setGo n v false cur with
        | some rest' => some (P :: rest')
        | none => none) := rfl
  by_cases hfound : (List.lookup n P.integers).isSome = true
  · rw [hset, hgo, if_pos hfound]
    exact ⟨_, cur, rfl, hp, hnon, hrel⟩
  · have hcontains : P.nonIntegers.contains n = false := by
      rw [hnon]
      rfl
    rw [hset, hgo, if_neg hfound, if_pos hp]
    simp only [hcontains, Bool.false_eq_true, if_false]
    cases hrec : setPoisonGo n cur with
    | none => exact ⟨P, cur, rfl, hp, hnon, hrel⟩
    | some rest' =>
      exact ⟨_, rest', rfl, hp, hnon,
        forall₂_levelPreserved_trans hrel (setPoisonGo_preserved n cur rest' hrec)⟩

lemma setMany_poisonTop (orig : List Level) (ops : List (String × Int)) :
    ∀ (P : Level) (cur : List Level), P.poisonsAncestors = true → P.nonIntegers = [] →
    List.Forall₂ LevelPreserved orig cur →
    ∃ P' cur', (setMany ⟨P :: cur⟩ ops).levels = P' :: cur' ∧
      List.Forall₂ LevelPreserved orig cur' := by
  induction ops with
  | nil =>
    intro P cur _ _ hrel
    exact ⟨P, cur, rfl, hrel⟩
  | cons op rest ih =>
    intro P cur hp hnon hrel
    obtain ⟨n, v⟩ := op
    obtain ⟨P', cur', hlev, hp', hnon', hrel'⟩ :=
      poisonTop_set_preserved orig P cur hp hnon hrel n v
    have hstate : (match IntegerContext.set ⟨P :: cur⟩ n v with
        | some ic' => ic'
        | none => (⟨P :: cur⟩ : IntegerContext)) = ⟨P' :: cur'⟩ := by
      rw [← hlev]
    unfold setMany
    rw [hstate]
    exact ih P' cur' hp' hnon' hrel'

/-- C3 (amended): a `set` performed just inside a poisoning scope that
reaches a binding in an ancestor scope marks that ancestor cell `POISONED`
(keeping its pre-entry value) and creates a fresh `VALID` binding holding
the new value in the *innermost* crossed poisoning scope (the source
captures the first poisoning level met while walking outward, not the
outermost one as the claim stated); and after any sequence of `set` calls
performed inside the poisoning scope followed by `exitLevel`, every
ancestor integer binding is either untouched (retains its pre-entry state
and value) or is `POISONED` with its pre-entry value — no ancestor binding
holds a value written inside the poisoning scope. -/
theorem integerContext_poisoning_scope :
    (∀ (ic : IntegerContext) (n : String) (v : Int) (ic'' : IntegerContext),
      (ic.enterPoisoningLevel).set n v = some ic'' →
      ∃ (hd : Level) (t : List Level) (d : IntegerData),
        ic''.levels = hd :: t ∧ hd.poisonsAncestors = true ∧
        List.lookup n hd.integers = some ⟨.VALID, v⟩ ∧
        ic.findInteger n = some d ∧
        (ic''.exitLevel).findInteger n = some ⟨.POISONED, d.value⟩)
    ∧ (∀ (ic : IntegerContext) (ops : List (String × Int)),
        List.Forall₂ LevelPreserved ic.levels
          ((setMany (ic.enterPoisoningLevel) ops).exitLevel).levels) := by
  constructor
  · exact set_enterPoisoning_spec
  · intro ic ops
    obtain ⟨P', cur', hlev, hrel⟩ :=
      setMany_poisonTop ic.levels ops (emptyLevel true true) ic.levels rfl rfl
        (forall₂_levelPreserved_refl _)
    have hlev2 : (setMany (ic.enterPoisoningLevel) ops).levels = P' :: cur' := hlev
    simp only [IntegerContext.exitLevel, hlev2, List.tail_cons]
    exact hrel

theorem integerContext_poisoning_scope_witness :
    ∃ (hd : Level) (t : List Level) (d : IntegerData),
      (IntegerContext.mk
        [{ emptyLevel true true with integers := [("x", ⟨.VALID, 5⟩)] },
         { emptyLevel true false with integers := [("x", ⟨.POISONED, 1⟩)] },
         emptyLevel false false]).levels = hd :: t ∧
      hd.poisonsAncestors = true ∧
      List.lookup "x" hd.integers = some ⟨.VALID, 5⟩ ∧
      (IntegerContext.mk
        [{ emptyLevel true false with integers := [("x", ⟨.VALID, 1⟩)] },
         emptyLevel false false]).findInteger "x" = some d ∧
      ((IntegerContext.mk
        [{ emptyLevel true true with integers := [("x", ⟨.VALID, 5⟩)] },
         { emptyLevel true false with integers := [("x", ⟨.POISONED, 1⟩)] },
         emptyLevel false false]).exitLevel).findInteger "x" =
        some ⟨.POISONED, d.value⟩ :=
  integerContext_poisoning_scope.1
    ⟨[{ emptyLevel true false with integers := [("x", ⟨.VALID, 1⟩)] },
      emptyLevel false false]⟩ "x" 5
    ⟨[{ emptyLevel true true with integers := [("x", ⟨.VALID, 5⟩)] },
      { emptyLevel true false with integers := [("x", ⟨.POISONED, 1⟩)] },
      emptyLevel false false]⟩ (by decide)

/-- Counterexample to C3 as stated: with two nested poisoning scopes above
a mutable scope binding `x`, the crossing `set` creates the fresh `VALID`
binding in the innermost crossed poisoning scope (the first level), while
the outermost crossed poisoning scope (the second level) receives no
binding for `x` — the claim places the fresh binding there. -/
theorem poisoning_innermost_counterexample :
    (IntegerContext.set
      ⟨[emptyLevel true true, emptyLevel true true,
        { emptyLevel true false with integers := [("x", ⟨.VALID, 1⟩)] },
        emptyLevel false false]⟩ "x" 5).map
      (fun ic => ic.levels.map (fun l => List.lookup "x" l.integers)) =
    some [some ⟨.VALID, 5⟩, none, some ⟨.POISONED, 1⟩, none] := by
  decide

/-! ## Integer variable bindings -/

lemma lookup_insertA_self (l : List (String × IntegerData)) (n : String) (d : IntegerData) :
    List.lookup n (insertA l n d) = some d := by
  induction l with
  | nil => simp [insertA, List.lookup]
  | cons e rest ih =>
    obtain ⟨m, dd⟩ := e
    unfold insertA
    by_cases hm : m = n
    · subst hm
      rw [if_pos rfl]
      simp [List.lookup]
    · rw [if_neg hm]
      have hb : (n == m) = false := beq_eq_false_iff_ne.mpr (fun hh => hm hh.symm)
      simp [List.lookup, hb, ih]

lemma lookup_insertA_ne (l : List (String × IntegerData)) (n m : String) (d : IntegerData)
    (hnm : m ≠ n) : List.lookup m (insertA l n d) = List.lookup m l := by
  induction l with
  | nil =>
    have hb : (m == n) = false := beq_eq_false_iff_ne.mpr hnm
    simp [insertA, List.lookup, hb]
  | cons e rest ih =>
    obtain ⟨k, dd⟩ := e
    unfold insertA
    by_cases hk : k = n
    · subst hk
      rw [if_pos rfl]
      have hb : (m == k) = false := beq_eq_false_iff_ne.mpr hnm
      simp [List.lookup, hb]
    · rw [if_neg hk]
      cases hmk : (m == k) <;> simp [List.lookup, hmk, ih]

lemma defineVar_fresh (cur : Level) (rest : List Level) (n : String)
    (h1 : List.lookup n cur.integers = none) (h2 : cur.nonIntegers.contains n = false) :
    IntegerContext.defineVar ⟨cur :: rest⟩ n true =
      (⟨{ cur with integers := insertA cur.integers n ⟨.INVALID, 0⟩ } :: rest⟩, true) := by
  unfold IntegerContext.defineVar
  dsimp only
  rw [h2, h1]
  simp

lemma set_found_head (cur : Level) (rest : List Level) (n : String) (v : Int)
    (h : (List.lookup n cur.integers).isSome = true) :
    IntegerContext.set ⟨cur :: rest⟩ n v =
      some ⟨{ cur with integers := insertA cur.integers n ⟨.VALID, v⟩ } :: rest⟩ := by
  unfold IntegerContext.set setGo
  simp [h]

/-- Effect of one `varInit` of an `Integer` varBinding on the current
scope: `defineVar(name, true)` installs an `INVALID` cell, and when a
right-hand side is present `set(name, getIntegerValue(rhs))` immediately
overwrites it with a `VALID` cell. -/
def varInitLevel (cur : Level) (n : String) (rhs : Option AnyVal) : Level :=
  match rhs with
  | none => { cur with integers := insertA cur.integers n ⟨.INVALID, 0⟩ }
  | some v =>
    { cur with
      integers := insertA (insertA cur.integers n ⟨.INVALID, 0⟩) n ⟨.VALID, getIntegerValue v⟩ }

lemma varInitLevel_nonIntegers (cur : Level) (n : String) (rhs : Option AnyVal) :
    (varInitLevel cur n rhs).nonIntegers = cur.nonIntegers := by
  cases rhs <;> rfl

lemma lookup_varInitLevel_self (cur : Level) (n : String) (rhs : Option AnyVal) :
    List.lookup n (varInitLevel cur n rhs).integers =
      some (match rhs with
             | none => (⟨.INVALID, 0⟩ : IntegerData)
             | some v => ⟨.VALID, getIntegerValue v⟩) := by
  cases rhs <;> simp [varInitLevel, lookup_insertA_self]

lemma lookup_varInitLevel_ne (cur : Level) (n m : String) (rhs : Option AnyVal)
    (hmn : m ≠ n) :
    List.lookup m (varInitLevel cur n rhs).integers = List.lookup m cur.integers := by
  cases rhs with
  | none => simp [varInitLevel, lookup_insertA_ne _ _ _ _ hmn]
  | some v => simp [varInitLevel, lookup_insertA_ne _ _ _ _ hmn]

lemma processVarInits_step (cur : Level) (rest : List Level) (n : String)
    (rhs : Option AnyVal) (vs : List (String × Option AnyVal))
    (h1 : List.lookup n cur.integers = none) (h2 : cur.nonIntegers.contains n = false) :
    processVarInits ⟨cur :: rest⟩ ((n, rhs) :: vs) =
      processVarInits ⟨varInitLevel cur n rhs :: rest⟩ vs := by
  cases rhs with
  | none =>
    have e1 : processVarInits ⟨cur :: rest⟩ ((n, none) :: vs) =
        processVarInits (IntegerContext.defineVar ⟨cur :: rest⟩ n true).1 vs := rfl
    rw [e1, defineVar_fresh cur rest n h1 h2]
    rfl
  | some v =>
    have e1 : processVarInits ⟨cur :: rest⟩ ((n, some v) :: vs) =
        processVarInits
          (match (IntegerContext.defineVar ⟨cur :: rest⟩ n true).1.set n
              (getIntegerValue v) with
            | some x => x
            | none => (IntegerContext.defineVar ⟨cur :: rest⟩ n true).1) vs := rfl
    rw [e1, defineVar_fresh cur rest n h1 h2]
    have e2 : ((⟨{ cur with integers := insertA cur.integers n ⟨.INVALID, 0⟩ } :: rest⟩,
        true) : IntegerContext × Bool).1 =
        ⟨{ cur with integers := insertA cur.integers n ⟨.INVALID, 0⟩ } :: rest⟩ := rfl
    rw [e2, set_found_head { cur with integers := insertA cur.integers n ⟨.INVALID, 0⟩ }
      rest n (getIntegerValue v) (by rw [lookup_insertA_self]; rfl)]
    rfl

lemma processVarInits_spec (rest : List Level) (varInits : List (String × Option AnyVal)) :
    ∀ cur : Level,
    (∀ p ∈ varInits,
      List.lookup p.1 cur.integers = none ∧ cur.nonIntegers.contains p.1 = false) →
    varInits.Pairwise (fun a b => a.1 ≠ b.1) →
    ∃ cur', processVarInits ⟨cur :: rest⟩ varInits = ⟨cur' :: rest⟩ ∧
      cur'.nonIntegers = cur.nonIntegers ∧
      (∀ p ∈ varInits, List.lookup p.1 cur'.integers =
        some (match p.2 with
               | none => (⟨.INVALID, 0⟩ : IntegerData)
               | some v => ⟨.VALID, getIntegerValue v⟩)) ∧
      (∀ m : String, (∀ p ∈ varInits, p.1 ≠ m) →
        List.lookup m cur'.integers = List.lookup m cur.integers) := by
  induction varInits with
  | nil =>
    intro cur _ _
    exact ⟨cur, rfl, rfl, fun p hp => absurd hp (List.not_mem_nil p), fun m _ => rfl⟩
  | cons q vs ih =>
    intro cur hfresh hpw
    obtain ⟨n, rhs⟩ := q
    obtain ⟨hn1, hn2⟩ := hfresh (n, rhs) (List.mem_cons_self _ _)
    have hstep := processVarInits_step cur rest n rhs vs hn1 hn2
    have hfresh' : ∀ p ∈ vs,
        List.lookup p.1 (varInitLevel cur n rhs).integers = none ∧
        (varInitLevel cur n rhs).nonIntegers.contains p.1 = false := by
      intro p hp
      have hne : p.1 ≠ n := by
        have := (List.pairwise_cons.mp hpw).1 p hp
        exact fun hh => this hh.symm
      obtain ⟨hp1, hp2⟩ := hfresh p (List.mem_cons_of_mem _ hp)
      rw [lookup_varInitLevel_ne cur n p.1 rhs hne, varInitLevel_nonIntegers]
      exact ⟨hp1, hp2⟩
    obtain ⟨cur', hrun, hnonint, hmem, hframe⟩ :=
      ih (varInitLevel cur n rhs) hfresh' (List.pairwise_cons.mp hpw).2
    refine ⟨cur', by rw [hstep]; exact hrun,
      by rw [hnonint, varInitLevel_nonIntegers], ?_, ?_⟩
    · intro p hp
      rcases List.mem_cons.mp hp with hp | hp
      · subst hp
        have hall : ∀ p ∈ vs, p.1 ≠ n :=
          fun p hp => ((List.pairwise_cons.mp hpw).1 p hp).symm
        rw [hframe n hall, lookup_varInitLevel_self]
      · exact hmem p hp
    · intro m hm
      have hnm : n ≠ m := hm (n, rhs) (List.mem_cons_self _ _)
      rw [hframe m (fun p hp => hm p (List.mem_cons_of_mem _ hp)),
        lookup_varInitLevel_ne cur n m rhs (fun hh => hnm hh.symm)]

/-- C7 (amended): a `varBinding` statement of declared type `Integer`
deposits `Skip` on the statement node (it emits nothing), defines each
`varInit` name as a compile-time integer in the current scope, and binds a
right-hand side that elaborated to an integer value to the name; a binding
whose right-hand side did not elaborate to an integer value is set `VALID`
with the dummy value `42424242` returned by `getIntegerValue` after it
reports the elaboration error (the claim said such a binding stays
`Invalid`; only a `varInit` with no right-hand side at all remains
`INVALID`).  The names are assumed distinct and fresh in the current
scope. -/
theorem varBinding_integer_semantics (cur : Level) (rest : List Level)
    (varInits : List (String × Option AnyVal))
    (hfresh : ∀ p ∈ varInits,
      List.lookup p.1 cur.integers = none ∧ cur.nonIntegers.contains p.1 = false)
    (hpw : varInits.Pairwise (fun a b => a.1 ≠ b.1)) :
    (exitVarBinding ⟨cur :: rest⟩ "Integer" varInits).2 = some .skipV ∧
    ∃ cur', (exitVarBinding ⟨cur :: rest⟩ "Integer" varInits).1 = ⟨cur' :: rest⟩ ∧
      ∀ p ∈ varInits, List.lookup p.1 cur'.integers =
        some (match p.2 with
               | none => (⟨.INVALID, 0⟩ : IntegerData)
               | some (.intV i) => ⟨.VALID, i⟩
               | some _ => ⟨.VALID, 42424242⟩) := by
  obtain ⟨cur', hrun, _, hmem, _⟩ := processVarInits_spec rest varInits cur hfresh hpw
  refine ⟨rfl, cur', ?_, ?_⟩
  · have e : (exitVarBinding ⟨cur :: rest⟩ "Integer" varInits).1 =
        processVarInits ⟨cur :: rest⟩ varInits := rfl
    rw [e, hrun]
  · intro p hp
    have := hmem p hp
    rcases p with ⟨name, rhs⟩
    match rhs with
    | none => exact this
    | some (.intV i) => exact this
    | some (.boolV b) => exact this
    | some (.basicErr e) => exact this
    | some (.subErr es) => exact this
    | some .skipV => exact this
    | some .null => exact this

theorem varBinding_integer_semantics_witness :
    (exitVarBinding ⟨[emptyLevel true false, emptyLevel false false]⟩ "Integer"
      [("a", none), ("b", some (.intV 7))]).2 = some .skipV ∧
    ∃ cur', (exitVarBinding ⟨[emptyLevel true false, emptyLevel false false]⟩ "Integer"
        [("a", none), ("b", some (.intV 7))]).1 = ⟨cur' :: [emptyLevel false false]⟩ ∧
      ∀ p ∈ [(("a" : String), (none : Option AnyVal)), ("b", some (.intV 7))],
        List.lookup p.1 cur'.integers =
          some (match p.2 with
                 | none => (⟨.INVALID, 0⟩ : IntegerData)
                 | some (.intV i) => ⟨.VALID, i⟩
                 | some _ => ⟨.VALID, 42424242⟩) :=
  varBinding_integer_semantics (emptyLevel true false) [emptyLevel false false]
    [("a", none), ("b", some (.intV 7))] (by decide) (by decide)

/-- Counterexample to C7 as stated: a `varInit` whose right-hand side did
not elaborate to an integer (a null value here) ends up `VALID` with the
dummy value `42424242`, not `INVALID` as the claim says. -/
theorem varBinding_invalid_counterexample :
    (exitVarBinding ⟨[emptyLevel true false, emptyLevel false false]⟩ "Integer"
      [("x", some .null)]).1.findInteger "x" = some ⟨.VALID, 42424242⟩ ∧
    IntegerState.VALID ≠ IntegerState.INVALID := by
  constructor
  · decide
  · decide

/-! ## Diagnostic deduplication -/

/-- C8 (amended): a message identical to one already reported is ignored
entirely — neither printed again nor counted (the claim said it is
counted); a fresh message is printed when `reportAllMsgs` is set or its
AST node is fresh, and counted; a fresh message on an already-seen AST
node without `reportAllMsgs` is counted but not printed (coalesced); and
after processing, if any errors were counted the process exits with the
non-zero code `-1`, printing the omitted-similar-errors note exactly when
the error count exceeds the number of distinct printed messages. -/
theorem report_dedup_semantics :
    (∀ (st : ReportState) (msg locInfo : String) (ctx : Option Nat),
      st.errMsgs.contains msg = true →
      reportMsg st true msg locInfo ctx = (st, none))
    ∧ (∀ (st : ReportState) (msg locInfo : String) (ctx : Option Nat),
        st.errMsgs.contains msg = false →
        (st.reportAllMsgs = true ∨ ctxSeen st.errCtxs ctx = false) →
        (reportMsg st true msg locInfo ctx).2 = some (locInfo ++ msg) ∧
        (reportMsg st true msg locInfo ctx).1.totalErrs = st.totalErrs + 1 ∧
        (reportMsg st true msg locInfo ctx).1.errMsgs = msg :: st.errMsgs)
    ∧ (∀ (st : ReportState) (msg locInfo : String) (ctx : Option Nat),
        st.errMsgs.contains msg = false →
        st.reportAllMsgs = false → ctxSeen st.errCtxs ctx = true →
        (reportMsg st true msg locInfo ctx).2 = none ∧
        (reportMsg st true msg locInfo ctx).1.totalErrs = st.totalErrs + 1 ∧
        (reportMsg st true msg locInfo ctx).1.errMsgs = st.errMsgs)
    ∧ (∀ st : ReportState,
        (st.totalErrs = 0 → exitIfErrors st = none) ∧
        (0 < st.totalErrs →
          exitIfErrors st = some
            (if st.errMsgs.length < st.totalErrs then
              some ("note: omitted " ++ toString (st.totalErrs - st.errMsgs.length) ++
                " errors similar to those reported; run with --all-errors to see all errors")
            else none, -1) ∧ (-1 : Int) ≠ 0)) := by
  refine ⟨?_, ?_, ?_, ?_⟩
  · intro st msg locInfo ctx h
    have hm : msg ∈ st.errMsgs := by simpa using h
    simp [reportMsg, hm]
  · intro st msg locInfo ctx h1 h2
    have hm : msg ∉ st.errMsgs := by simpa using h1
    rcases h2 with h2 | h2 <;> simp [reportMsg, hm, h2]
  · intro st msg locInfo ctx h1 h2 h3
    have hm : msg ∉ st.errMsgs := by simpa using h1
    simp [reportMsg, hm, h2, h3]
  · intro st
    constructor
    · intro h
      unfold exitIfErrors
      rw [if_pos h]
    · intro h
      refine ⟨?_, by decide⟩
      unfold exitIfErrors
      rw [if_neg (by omega)]

theorem report_dedup_semantics_witness :
    reportMsg ⟨[], ["m"], [], [], 1, 0, false⟩ true "m" "loc" none =
      (⟨[], ["m"], [], [], 1, 0, false⟩, none) :=
  report_dedup_semantics.1 ⟨[], ["m"], [], [], 1, 0, false⟩ "m" "loc" none (by decide)

/-- Counterexample to C8 as stated: reporting the same error message twice
leaves the total error count at `1` — the exact duplicate is not counted
(the claim says identical messages are counted), and nothing is printed
for it. -/
theorem duplicate_message_not_counted_counterexample :
    ((reportMsg ((reportMsg (initialReportState false) true "dup" "" none).1)
        true "dup" "" none).1).totalErrs = 1 ∧
    (reportMsg ((reportMsg (initialReportState false) true "dup" "" none).1)
        true "dup" "" none).2 = none ∧
    (1 : Nat) ≠ 2 := by
  refine ⟨?_, ?_, ?_⟩ <;> decide

/-! ## Header-less bsc events -/

/-- C9: evaluation of the header-less event dispatch at a message that
mentions neither `Command line:` nor the unbound-variable marker.  In the
source, `msg.find("Command line:") >= 0` compares an unsigned `size_t`
against zero (always true) and `msg.find("Unbound variable \x60mk")` is
implicitly converted to `bool` (true iff the returned position is nonzero,
`npos` included), so the special case fires and the event is rewritten to
the cannot-find-top-level diagnostic — although the claim (and the spec,
and the surrounding comment) say the rewrite happens exactly when the
message mentions both markers. -/
theorem headerless_special_case_bug :
    reportHeaderless "Top" true ("Garbage text with no markers".toList) =
      .topLevelNotFound ("error: cannot find top-level module " ++ squote ++ "Top" ++ squote)
    ∧ mentionsSub ("Garbage text with no markers".toList) cmdLinePat = false
    ∧ mentionsSub ("Garbage text with no markers".toList) unboundMkPat = false := by
  refine ⟨?_, ?_, ?_⟩ <;> decide
